import Mathlib

/-!
# Verification of the tic-tac-toe game engine

Shallow embedding of the game-state logic of
`src/tic_tac_toe_frontend/src/app/page.tsx`: the board representation,
`getWinner`, `getAvailableMoves`, `isBoardFull`, the component state of
`TicTacToe`, and its operations `makeMove`, `aiMove` (the scheduled
computer move), `restartGame`, `resetAll`, and the opponent-mode toggle
button.  JavaScript array semantics relevant to the source (reads out of
range yield `undefined`; writes past the end extend the array with holes;
writes at negative indices create a non-index property and leave the
elements untouched) are modelled explicitly, so that calls of `makeMove`
with arbitrary integer indices mean in the model exactly what they mean
in the source.
-/

/-- The two marks, `"X"` and `"O"` (source type `Player`). -/
inductive Player where
  | X : Player
  | O : Player
deriving DecidableEq, Repr

/-- One board slot as JavaScript can observe it.  A slot normally holds a
mark (`"X"`/`"O"`) or `null` (source type `Cell = Player | null`); `hole`
stands for an absent array element (a hole created by writing past the
array's end), which reads as `undefined` and which iteration methods such
as `every`, `some` and `map` skip. -/
inductive Cell where
  | mark : Player → Cell
  | null : Cell
  | hole : Cell
deriving DecidableEq, Repr

/-- The mark held by a cell, if any; `null` and `undefined` both give
`none` (both are falsy and neither equals `"X"` or `"O"`). -/
def cellMark : Cell → Option Player
  | Cell.mark p => some p
  | Cell.null => none
  | Cell.hole => none

/-- JavaScript truthiness of a cell value: marks (non-empty strings) are
truthy, `null` and `undefined` are falsy. -/
def truthyCell (c : Cell) : Bool := (cellMark c).isSome

/-- `const EMPTY_BOARD: Cell[] = Array(9).fill(null);` -/
def EMPTY_BOARD : List Cell := List.replicate 9 Cell.null

/-- Reading `board[i]` for a natural index: the element when `i` is in
range, `undefined` (= `hole`) otherwise. -/
def jsRead (board : List Cell) (i : Nat) : Cell := board.getD i Cell.hole

/-- The 8 fixed lines of `getWinner`: 3 rows, 3 columns, 2 diagonals,
in the source's order. -/
def LINES : List (Nat × Nat × Nat) :=
  [(0, 1, 2), (3, 4, 5), (6, 7, 8), (0, 3, 6), (1, 4, 7), (2, 5, 8), (0, 4, 8), (2, 4, 6)]

/-- One iteration of the loop body of `getWinner`:
`board[a] && board[a] === board[b] && board[a] === board[c]` returns
`board[a]` when it holds a mark equal (by `===`) to `board[b]` and
`board[c]`, and nothing otherwise. -/
def checkLine (board : List Cell) (t : Nat × Nat × Nat) : Option Player :=
  match cellMark (jsRead board t.1) with
  | some p =>
      if cellMark (jsRead board t.2.1) = some p ∧ cellMark (jsRead board t.2.2) = some p
      then some p else none
  | none => none

/-- `getWinner`: scan the 8 lines in order and return the first mark
occupying a full line, else `null`. -/
def getWinner (board : List Cell) : Option Player :=
  LINES.findSome? (checkLine board)

/-- `getAvailableMoves`: indices of the cells that are `=== null`
(map/filter skip holes, and a hole is not `=== null`). -/
def getAvailableMoves (board : List Cell) : List Nat :=
  board.enum.filterMap fun p => if p.2 = Cell.null then some p.1 else none

/-- `isBoardFull`: `board.every((cell) => cell !== null)`.  `every` skips
holes, so a hole counts as passing; a mark passes; `null` fails. -/
def isBoardFull (board : List Cell) : Bool :=
  board.all fun cell =>
    match cell with
    | Cell.null => false
    | _ => true

/-- The possible values of the `winner` state variable other than `null`:
a winning mark or the string `"Draw"`. -/
inductive RoundEnd where
  | won : Player → RoundEnd
  | draw : RoundEnd
deriving DecidableEq, Repr

/-- The component state of `TicTacToe`: `board`, `current`, `aiMode`,
`winner`, `score` (split into its two entries) and `startingPlayer`. -/
structure GameState where
  board : List Cell
  current : Player
  aiMode : Bool
  winner : Option RoundEnd
  scoreX : Nat
  scoreO : Nat
  startingPlayer : Player
deriving DecidableEq, Repr

/-- The initial values of the six `useState` hooks. -/
def initState : GameState :=
  { board := EMPTY_BOARD
    current := Player.X
    aiMode := false
    winner := none
    scoreX := 0
    scoreO := 0
    startingPlayer := Player.X }

/-- `current === "X" ? "O" : "X"` -/
def otherPlayer : Player → Player
  | Player.X => Player.O
  | Player.O => Player.X

/-- Reading `board[idx]` for an arbitrary integer index (negative or past
the end gives `undefined`). -/
def jsGet (board : List Cell) (idx : Int) : Cell :=
  if 0 ≤ idx then jsRead board idx.toNat else Cell.hole

/-- The assignment `newBoard[idx] = v` of JavaScript arrays:
in range it replaces the element; past the end it extends the array,
filling the gap with holes; at a negative index it creates a non-index
property, invisible to every read the source performs, so the element
list is unchanged. -/
def jsArraySet (board : List Cell) (idx : Int) (v : Cell) : List Cell :=
  if 0 ≤ idx then
    if idx.toNat < board.length then
      board.set idx.toNat v
    else
      board ++ List.replicate (idx.toNat - board.length) Cell.hole ++ [v]
  else
    board

/-- The outcome evaluation shared by every execution of the body of
`makeMove` past its guard: branch on `getWinner` of the updated board
(`newBoard` in the source), then on `isBoardFull`.  The base state `s` is
the one the `set*` calls update; `mover` is the `current` the closure
captured (the mark just placed), used by `setCurrent(current === "X" ?
"O" : "X")`; `setScore((prev) => ...)` increments exactly the winning
mark's entry of the base state's score. -/
def makeMoveAux (s : GameState) (mover : Player) (newBoard : List Cell) : GameState :=
  match getWinner newBoard with
  | some p =>
      { s with
        board := newBoard
        winner := some (RoundEnd.won p)
        scoreX := if p = Player.X then s.scoreX + 1 else s.scoreX
        scoreO := if p = Player.O then s.scoreO + 1 else s.scoreO }
  | none =>
      if isBoardFull newBoard then
        { s with board := newBoard, winner := some RoundEnd.draw }
      else
        { s with board := newBoard, current := otherPlayer mover }

/-- `makeMove(idx)`: return unchanged when `board[idx]` is truthy or
`winner` is truthy; otherwise place `current`'s mark at `idx` and
evaluate the outcome.  The React state updates of each branch are
modelled as one state record update. -/
def makeMove (s : GameState) (idx : Int) : GameState :=
  if truthyCell (jsGet s.board idx) || s.winner.isSome then s
  else
    makeMoveAux s s.current (jsArraySet s.board idx (Cell.mark s.current))

/-- `restartGame()`: empty board, no winner, starting player flipped,
turn set to the new starting player; `score` and `aiMode` untouched. -/
def restartGame (s : GameState) : GameState :=
  let nextStarting := otherPlayer s.startingPlayer
  { s with
    board := EMPTY_BOARD
    winner := none
    startingPlayer := nextStarting
    current := nextStarting }

/-- `resetAll()`: every state variable back to its initial value. -/
def resetAll (_ : GameState) : GameState :=
  { board := EMPTY_BOARD
    winner := none
    scoreX := 0
    scoreO := 0
    aiMode := false
    startingPlayer := Player.X
    current := Player.X }

/-- The opponent-mode button: `onClick={() => setAIMode((prev) => !prev)}`
guarded by `disabled={score.X > 0 || score.O > 0 || board.some((v) => v)}`
(a disabled button delivers no click).  `some` skips holes and a hole is
falsy, so the guard asks whether any cell holds a mark. -/
def toggleAIMode (s : GameState) : GameState :=
  if 0 < s.scoreX ∨ 0 < s.scoreO ∨ s.board.any truthyCell = true then s
  else { s with aiMode := !s.aiMode }

/-- The guard of `aiMove()` together with its `open.length > 0` test:
the effect schedules a computer move exactly when `aiMode` holds, there
is no winner, it is O's turn and an empty cell exists. -/
def aiSchedules (s : GameState) : Bool :=
  s.aiMode && !s.winner.isSome && s.current == Player.O
    && (getAvailableMoves s.board).length > 0

/-- The body of the `setTimeout(() => makeMove(move), 500)` callback as it
actually executes after the delay: `makeMove` here is the closure captured
when the move was scheduled, so its reads of `board`, `winner` and
`current` see the *scheduling-time* state `sched`, while its `set*` calls
update the *live* state `live`.  `setBoard(newBoard)`, `setWinner(...)`
and `setCurrent(...)` store values computed from `sched`; only
`setScore((prev) => ...)` is a functional update and reads the live
score. -/
def staleFire (sched : GameState) (move : Int) (live : GameState) : GameState :=
  if truthyCell (jsGet sched.board move) || sched.winner.isSome then live
  else
    makeMoveAux live sched.current (jsArraySet sched.board move (Cell.mark sched.current))

/-- One invocation of a GameEngine operation (§4/§6 of the spec): a move
at an arbitrary integer index, a round restart, a full reset, or a click
of the opponent-mode button.  A computer move executed with its
preconditions intact is `place` at an empty in-range cell, so it adds no
transitions. -/
inductive Step : GameState → GameState → Prop
  | place (s : GameState) (idx : Int) : Step s (makeMove s idx)
  | restart (s : GameState) : Step s (restartGame s)
  | reset (s : GameState) : Step s (resetAll s)
  | toggle (s : GameState) : Step s (toggleAIMode s)

/-- States reachable from the freshly mounted component through the
engine's operations. -/
inductive Reachable : GameState → Prop
  | init : Reachable initState
  | step {s s' : GameState} : Reachable s → Step s s' → Reachable s'

/-- The mark stored at index `i` of a board, if any. -/
def markAt (board : List Cell) (i : Nat) : Option Player := cellMark (jsRead board i)

/-- Some line of the 8 holds three cells all carrying mark `m`. -/
def hasTriple (board : List Cell) (m : Player) : Prop :=
  ∃ t ∈ LINES, markAt board t.1 = some m ∧ markAt board t.2.1 = some m
    ∧ markAt board t.2.2 = some m

instance (board : List Cell) (m : Player) : Decidable (hasTriple board m) := by
  unfold hasTriple; infer_instance

/-- All 9 cells of the playing grid carry a mark. -/
def boardFull9 (board : List Cell) : Prop :=
  ∀ i : Nat, i < 9 → (markAt board i).isSome = true

instance (board : List Cell) : Decidable (boardFull9 board) := by
  unfold boardFull9; infer_instance

/-- Exchange the two marks. -/
def swapPlayer : Player → Player
  | Player.X => Player.O
  | Player.O => Player.X

/-- Exchange X and O cell-wise; empty stays empty. -/
def swapCell : Cell → Cell
  | Cell.mark p => Cell.mark (swapPlayer p)
  | Cell.null => Cell.null
  | Cell.hole => Cell.hole

lemma jsRead_eq (b : List Cell) (i : Nat) : jsRead b i = (b[i]?).getD Cell.hole :=
  List.getD_eq_getElem?_getD b i Cell.hole

lemma jsRead_eq_getElem {b : List Cell} {i : Nat} (h : i < b.length) : jsRead b i = b[i] := by
  rw [jsRead_eq, List.getElem?_eq_getElem h, Option.getD_some]

lemma jsRead_out {b : List Cell} {i : Nat} (h : b.length ≤ i) : jsRead b i = Cell.hole :=
  List.getD_eq_default b Cell.hole h

lemma jsGet_natCast (b : List Cell) (i : Nat) : jsGet b (i : Int) = jsRead b i := by
  unfold jsGet
  rw [if_pos (Int.natCast_nonneg i), Int.toNat_natCast]

lemma jsArraySet_in {b : List Cell} {idx : Int} {v : Cell} (h0 : 0 ≤ idx)
    (hl : idx.toNat < b.length) : jsArraySet b idx v = b.set idx.toNat v := by
  unfold jsArraySet
  rw [if_pos h0, if_pos hl]

lemma jsArraySet_app {b : List Cell} {idx : Int} {v : Cell} (h0 : 0 ≤ idx)
    (hl : b.length ≤ idx.toNat) :
    jsArraySet b idx v = b ++ (List.replicate (idx.toNat - b.length) Cell.hole ++ [v]) := by
  unfold jsArraySet
  rw [if_pos h0, if_neg (Nat.not_lt.mpr hl), List.append_assoc]

lemma jsArraySet_neg {b : List Cell} {idx : Int} {v : Cell} (h : idx < 0) :
    jsArraySet b idx v = b := by
  unfold jsArraySet
  rw [if_neg (Int.not_le.mpr h)]

lemma jsRead_set_self {b : List Cell} {n : Nat} {v : Cell} (h : n < b.length) :
    jsRead (b.set n v) n = v := by
  rw [jsRead_eq, List.getElem?_set_eq_of_lt v h, Option.getD_some]

lemma jsRead_set_ne {b : List Cell} {n i : Nat} {v : Cell} (h : n ≠ i) :
    jsRead (b.set n v) i = jsRead b i := by
  rw [jsRead_eq, jsRead_eq, List.getElem?_set_ne h]

lemma length_jsArraySet_in {b : List Cell} {idx : Int} {v : Cell} (h0 : 0 ≤ idx)
    (hl : idx.toNat < b.length) : (jsArraySet b idx v).length = b.length := by
  rw [jsArraySet_in h0 hl, List.length_set]

lemma length_jsArraySet_app {b : List Cell} {idx : Int} {v : Cell} (h0 : 0 ≤ idx)
    (hl : b.length ≤ idx.toNat) : (jsArraySet b idx v).length = idx.toNat + 1 := by
  rw [jsArraySet_app h0 hl, List.length_append, List.length_append, List.length_replicate,
    List.length_singleton]
  omega

lemma jsRead_app_lt {b : List Cell} {idx : Int} {v : Cell} {i : Nat} (h0 : 0 ≤ idx)
    (hl : b.length ≤ idx.toNat) (hi : i < b.length) :
    jsRead (jsArraySet b idx v) i = jsRead b i := by
  rw [jsArraySet_app h0 hl, jsRead_eq, jsRead_eq, List.getElem?_append_left hi]

lemma jsRead_app_ge {b : List Cell} {idx : Int} {v : Cell} {i : Nat} (h0 : 0 ≤ idx)
    (hl : b.length ≤ idx.toNat) (hi : b.length ≤ i) :
    jsRead (jsArraySet b idx v) i = Cell.hole ∨ jsRead (jsArraySet b idx v) i = v := by
  rw [jsArraySet_app h0 hl, jsRead_eq, List.getElem?_append_right hi]
  rcases h : (List.replicate (idx.toNat - b.length) Cell.hole ++ [v])[i - b.length]? with _ | c
  · left; rfl
  · have hc := List.getElem?_mem h
    rcases List.mem_append.mp hc with hc | hc
    · left
      rw [Option.getD_some, List.eq_of_mem_replicate hc]
    · right
      rw [Option.getD_some, List.mem_singleton.mp hc]

lemma checkLine_eq_some_iff {b : List Cell} {t : Nat × Nat × Nat} {p : Player} :
    checkLine b t = some p ↔
      markAt b t.1 = some p ∧ markAt b t.2.1 = some p ∧ markAt b t.2.2 = some p := by
  unfold checkLine markAt
  cases h : cellMark (jsRead b t.1) with
  | none => simp [h]
  | some q =>
    dsimp only
    split_ifs with hc
    · constructor
      · rintro h'
        rw [Option.some_inj] at h'
        subst h'
        exact ⟨rfl, hc.1, hc.2⟩
      · rintro ⟨h', -, -⟩
        rw [Option.some_inj] at h'
        rw [h']
    · constructor
      · rintro ⟨⟩
      · rintro ⟨hq, h1, h2⟩
        rw [Option.some_inj] at hq
        subst hq
        exact absurd ⟨h1, h2⟩ hc

lemma hasTriple_of_getWinner {b : List Cell} {p : Player} (h : getWinner b = some p) :
    hasTriple b p := by
  unfold getWinner at h
  rw [List.findSome?_eq_some_iff] at h
  obtain ⟨l1, t, l2, hsplit, hct, -⟩ := h
  obtain ⟨h1, h2, h3⟩ := checkLine_eq_some_iff.mp hct
  exact ⟨t, by rw [hsplit]; simp, h1, h2, h3⟩

lemma getWinner_eq_none_iff {b : List Cell} :
    getWinner b = none ↔ ∀ m : Player, ¬ hasTriple b m := by
  constructor
  · rintro h m ⟨t, ht, h1, h2, h3⟩
    have hnone := List.findSome?_eq_none_iff.mp h t ht
    rw [checkLine_eq_some_iff.mpr ⟨h1, h2, h3⟩] at hnone
    exact Option.some_ne_none m hnone
  · intro h
    cases hw : getWinner b with
    | none => rfl
    | some p => exact absurd (hasTriple_of_getWinner hw) (h p)

lemma lines_lt_9 : ∀ t ∈ LINES, t.1 < 9 ∧ t.2.1 < 9 ∧ t.2.2 < 9 := by decide

lemma hasTriple_of_unchanged9 {b b' : List Cell}
    (hsame : ∀ i : Nat, i < 9 → jsRead b' i = jsRead b i) {m : Player} :
    hasTriple b' m → hasTriple b m := by
  rintro ⟨t, ht, h1, h2, h3⟩
  obtain ⟨c1, c2, c3⟩ := lines_lt_9 t ht
  refine ⟨t, ht, ?_, ?_, ?_⟩
  · rwa [markAt, ← hsame t.1 c1]
  · rwa [markAt, ← hsame t.2.1 c2]
  · rwa [markAt, ← hsame t.2.2 c3]

lemma mark_of_hasTriple_set {b : List Cell} {idx : Int} {m p : Player}
    (h9 : 9 ≤ b.length) (hw : getWinner b = none) (h0 : 0 ≤ idx) :
    hasTriple (jsArraySet b idx (Cell.mark m)) p → p = m := by
  rintro ⟨t, ht, h1, h2, h3⟩
  obtain ⟨c1, c2, c3⟩ := lines_lt_9 t ht
  by_cases hl : idx.toNat < b.length
  · rw [jsArraySet_in h0 hl] at h1 h2 h3
    by_cases e1 : idx.toNat = t.1
    · rw [markAt, ← e1, jsRead_set_self hl] at h1
      simpa [cellMark] using h1.symm
    · by_cases e2 : idx.toNat = t.2.1
      · rw [markAt, ← e2, jsRead_set_self hl] at h2
        simpa [cellMark] using h2.symm
      · by_cases e3 : idx.toNat = t.2.2
        · rw [markAt, ← e3, jsRead_set_self hl] at h3
          simpa [cellMark] using h3.symm
        · have htrip : hasTriple b p := by
            refine ⟨t, ht, ?_, ?_, ?_⟩
            · rwa [markAt, ← jsRead_set_ne e1]
            · rwa [markAt, ← jsRead_set_ne e2]
            · rwa [markAt, ← jsRead_set_ne e3]
          exact absurd htrip (getWinner_eq_none_iff.mp hw p)
  · have hl' : b.length ≤ idx.toNat := Nat.le_of_not_lt hl
    have hsame : ∀ i : Nat, i < 9 →
        jsRead (jsArraySet b idx (Cell.mark m)) i = jsRead b i := by
      intro i hi
      exact jsRead_app_lt h0 hl' (lt_of_lt_of_le hi h9)
    have htrip : hasTriple b p := hasTriple_of_unchanged9 hsame ⟨t, ht, h1, h2, h3⟩
    exact absurd htrip (getWinner_eq_none_iff.mp hw p)

lemma isBoardFull_iff {b : List Cell} (h9 : 9 ≤ b.length)
    (hreal : ∀ i : Nat, i < 9 → jsRead b i ≠ Cell.hole)
    (hextra : ∀ i : Nat, 9 ≤ i → jsRead b i ≠ Cell.null) :
    isBoardFull b = true ↔ boardFull9 b := by
  unfold isBoardFull boardFull9
  rw [List.all_eq_true]
  constructor
  · intro h i hi
    have hlt : i < b.length := lt_of_lt_of_le hi h9
    have hp := h _ (List.getElem_mem hlt)
    have hr := hreal i hi
    rw [jsRead_eq_getElem hlt] at hr
    rw [markAt, jsRead_eq_getElem hlt]
    cases hb : b[i] with
    | mark p => rfl
    | null => rw [hb] at hp; cases hp
    | hole => exact absurd hb hr
  · intro h c hc
    obtain ⟨i, hlt, hbi⟩ := List.mem_iff_getElem.mp hc
    subst hbi
    by_cases hi : i < 9
    · have hm := h i hi
      rw [markAt, jsRead_eq_getElem hlt] at hm
      cases hb : b[i] with
      | mark p => rfl
      | null => rw [hb] at hm; cases hm
      | hole => rfl
    · have hn := hextra i (Nat.le_of_not_lt hi)
      rw [jsRead_eq_getElem hlt] at hn
      cases hb : b[i] with
      | mark p => rfl
      | null => exact absurd hb hn
      | hole => rfl

lemma makeMove_noop {s : GameState} {idx : Int}
    (h : (truthyCell (jsGet s.board idx) || s.winner.isSome) = true) : makeMove s idx = s := by
  unfold makeMove
  rw [if_pos h]

lemma makeMove_go {s : GameState} {idx : Int}
    (h : (truthyCell (jsGet s.board idx) || s.winner.isSome) = false) :
    makeMove s idx = makeMoveAux s s.current (jsArraySet s.board idx (Cell.mark s.current)) := by
  unfold makeMove
  rw [if_neg (by rw [h]; exact Bool.false_ne_true)]

lemma makeMoveAux_win {s : GameState} {mover : Player} {nb : List Cell} {p : Player}
    (h : getWinner nb = some p) :
    makeMoveAux s mover nb =
      { s with
        board := nb
        winner := some (RoundEnd.won p)
        scoreX := if p = Player.X then s.scoreX + 1 else s.scoreX
        scoreO := if p = Player.O then s.scoreO + 1 else s.scoreO } := by
  unfold makeMoveAux
  rw [h]

lemma makeMoveAux_draw {s : GameState} {mover : Player} {nb : List Cell}
    (h : getWinner nb = none) (hf : isBoardFull nb = true) :
    makeMoveAux s mover nb = { s with board := nb, winner := some RoundEnd.draw } := by
  unfold makeMoveAux
  rw [h]
  dsimp only
  rw [if_pos hf]

lemma makeMoveAux_cont {s : GameState} {mover : Player} {nb : List Cell}
    (h : getWinner nb = none) (hf : isBoardFull nb = false) :
    makeMoveAux s mover nb = { s with board := nb, current := otherPlayer mover } := by
  unfold makeMoveAux
  rw [h]
  dsimp only
  rw [if_neg (by rw [hf]; exact Bool.false_ne_true)]

/-- The consistency invariant of reachable states: the first 9 array
slots exist and are real cells (mark or `null`), every slot past index 8
(present only after an out-of-range write) is a mark or a hole, and the
stored `winner` agrees with the pure evaluation of the stored board. -/
def EngineInv (s : GameState) : Prop :=
  9 ≤ s.board.length ∧
  (∀ i : Nat, i < 9 → jsRead s.board i ≠ Cell.hole) ∧
  (∀ i : Nat, 9 ≤ i → jsRead s.board i ≠ Cell.null) ∧
  (s.winner = none → getWinner s.board = none) ∧
  (∀ m : Player, s.winner = some (RoundEnd.won m) → getWinner s.board = some m ∧ m = s.current) ∧
  (s.winner = some RoundEnd.draw → boardFull9 s.board ∧ getWinner s.board = none)

lemma inv_empty {s : GameState} (hb : s.board = EMPTY_BOARD) (hw : s.winner = none) : EngineInv s := by
  refine ⟨?_, ?_, ?_, ?_, ?_, ?_⟩
  · rw [hb]; decide
  · rw [hb]; decide
  · intro i hi
    rw [hb, jsRead_out (by simpa [EMPTY_BOARD] using hi)]
    decide
  · intro _
    rw [hb]; decide
  · intro m hm
    rw [hw] at hm
    cases hm
  · intro hm
    rw [hw] at hm
    cases hm

lemma jsArraySet_struct {b : List Cell} {idx : Int} {m : Player} (h0 : 0 ≤ idx)
    (hlen : 9 ≤ b.length) (hreal : ∀ i : Nat, i < 9 → jsRead b i ≠ Cell.hole)
    (hextra : ∀ i : Nat, 9 ≤ i → jsRead b i ≠ Cell.null) :
    9 ≤ (jsArraySet b idx (Cell.mark m)).length ∧
    (∀ i : Nat, i < 9 → jsRead (jsArraySet b idx (Cell.mark m)) i ≠ Cell.hole) ∧
    (∀ i : Nat, 9 ≤ i → jsRead (jsArraySet b idx (Cell.mark m)) i ≠ Cell.null) := by
  refine ⟨?_, ?_, ?_⟩
  · by_cases hl : idx.toNat < b.length
    · rw [length_jsArraySet_in h0 hl]; exact hlen
    · rw [length_jsArraySet_app h0 (Nat.le_of_not_lt hl)]
      omega
  · intro i hi
    by_cases hl : idx.toNat < b.length
    · rw [jsArraySet_in h0 hl]
      by_cases e : idx.toNat = i
      · rw [← e, jsRead_set_self hl]
        exact fun hc => Cell.noConfusion hc
      · rw [jsRead_set_ne e]
        exact hreal i hi
    · rw [jsRead_app_lt h0 (Nat.le_of_not_lt hl) (lt_of_lt_of_le hi hlen)]
      exact hreal i hi
  · intro i hi
    by_cases hl : idx.toNat < b.length
    · rw [jsArraySet_in h0 hl]
      by_cases e : idx.toNat = i
      · rw [← e, jsRead_set_self hl]
        exact fun hc => Cell.noConfusion hc
      · rw [jsRead_set_ne e]
        exact hextra i hi
    · by_cases hib : i < b.length
      · rw [jsRead_app_lt h0 (Nat.le_of_not_lt hl) hib]
        exact hextra i hi
      · rcases jsRead_app_ge h0 (Nat.le_of_not_lt hl) (Nat.le_of_not_lt hib)
          (v := Cell.mark m) (i := i) with hc | hc
        · rw [hc]; exact fun hc' => Cell.noConfusion hc'
        · rw [hc]; exact fun hc' => Cell.noConfusion hc'

lemma inv_makeMove {s : GameState} {idx : Int} (h : EngineInv s) : EngineInv (makeMove s idx) := by
  obtain ⟨hlen, hreal, hextra, hnone, hwon, hdraw⟩ := h
  by_cases hg : (truthyCell (jsGet s.board idx) || s.winner.isSome) = true
  · rw [makeMove_noop hg]
    exact ⟨hlen, hreal, hextra, hnone, hwon, hdraw⟩
  · have hg' := Bool.eq_false_iff.mpr hg
    have hw : s.winner = none := by
      have := (Bool.or_eq_false_iff.mp hg').2
      exact Option.not_isSome_iff_eq_none.mp (by rw [this]; exact Bool.false_ne_true)
    have hgw : getWinner s.board = none := hnone hw
    rw [makeMove_go hg']
    by_cases h0 : 0 ≤ idx
    · -- the new board exists; establish its structural facts
      obtain ⟨hlen', hreal', hextra'⟩ := jsArraySet_struct h0 hlen hreal hextra (m := s.current)
      cases hwin : getWinner (jsArraySet s.board idx (Cell.mark s.current)) with
      | some p =>
        have hp : p = s.current :=
          mark_of_hasTriple_set hlen hgw h0 (hasTriple_of_getWinner hwin)
        rw [makeMoveAux_win hwin]
        refine ⟨hlen', hreal', hextra', ?_, ?_, ?_⟩
        · intro hc; cases hc
        · intro m hm
          have : RoundEnd.won p = RoundEnd.won m := Option.some_inj.mp hm
          cases this
          exact ⟨hwin, hp⟩
        · intro hm
          cases Option.some_inj.mp hm
      | none =>
        by_cases hf : isBoardFull (jsArraySet s.board idx (Cell.mark s.current)) = true
        · rw [makeMoveAux_draw hwin hf]
          refine ⟨hlen', hreal', hextra', ?_, ?_, ?_⟩
          · intro hc; cases hc
          · intro m hm
            cases Option.some_inj.mp hm
          · intro _
            exact ⟨(isBoardFull_iff hlen' hreal' hextra').mp hf, hwin⟩
        · rw [makeMoveAux_cont hwin (Bool.eq_false_iff.mpr hf)]
          refine ⟨hlen', hreal', hextra', ?_, ?_, ?_⟩
          · intro _; exact hwin
          · intro m hm
            exact Option.noConfusion (hw.symm.trans hm)
          · intro hm
            exact Option.noConfusion (hw.symm.trans hm)
    · -- negative index: the element list is unchanged
      have hnb : jsArraySet s.board idx (Cell.mark s.current) = s.board :=
        jsArraySet_neg (Int.not_le.mp h0)
      rw [hnb]
      cases hwin : getWinner s.board with
      | some p => rw [hgw] at hwin; cases hwin
      | none =>
        by_cases hf : isBoardFull s.board = true
        · rw [makeMoveAux_draw hwin hf]
          refine ⟨hlen, hreal, hextra, ?_, ?_, ?_⟩
          · intro hc; cases hc
          · intro m hm
            cases Option.some_inj.mp hm
          · intro _
            exact ⟨(isBoardFull_iff hlen hreal hextra).mp hf, hwin⟩
        · rw [makeMoveAux_cont hwin (Bool.eq_false_iff.mpr hf)]
          refine ⟨hlen, hreal, hextra, ?_, ?_, ?_⟩
          · intro _; exact hwin
          · intro m hm
            exact Option.noConfusion (hw.symm.trans hm)
          · intro hm
            exact Option.noConfusion (hw.symm.trans hm)

lemma inv_toggle {s : GameState} (h : EngineInv s) : EngineInv (toggleAIMode s) := by
  unfold toggleAIMode
  split_ifs with hc
  · exact h
  · exact h

lemma inv_reachable {s : GameState} (h : Reachable s) : EngineInv s := by
  induction h with
  | init => exact inv_empty rfl rfl
  | step _ hstep ih =>
    cases hstep with
    | place idx => exact inv_makeMove ih
    | restart => exact inv_empty rfl rfl
    | reset => exact inv_empty rfl rfl
    | toggle => exact inv_toggle ih

/-- C7: for every state, `resetAll()` returns the engine to the initial
state: board all-empty, `winner` `null`, both scores `0`, `aiMode`
`false`, `startingPlayer = X` and `current = X` — exactly the state of a
freshly mounted component. -/
theorem resetAll_returns_initial (s : GameState) :
    resetAll s = initState ∧
    initState.board = EMPTY_BOARD ∧ initState.winner = none ∧
    initState.scoreX = 0 ∧ initState.scoreO = 0 ∧ initState.aiMode = false ∧
    initState.startingPlayer = Player.X ∧ initState.current = Player.X :=
  ⟨rfl, rfl, rfl, rfl, rfl, rfl, rfl, rfl⟩

/-- C6: for every state, `restartGame()` clears the board, clears the
winner, flips the starting player and hands the turn to the new starting
player, while both scores and `aiMode` are untouched. -/
theorem restartRound_spec (s : GameState) :
    (restartGame s).board = EMPTY_BOARD ∧
    (restartGame s).winner = none ∧
    (restartGame s).startingPlayer = otherPlayer s.startingPlayer ∧
    (restartGame s).current = otherPlayer s.startingPlayer ∧
    (restartGame s).scoreX = s.scoreX ∧
    (restartGame s).scoreO = s.scoreO ∧
    (restartGame s).aiMode = s.aiMode ∧
    otherPlayer Player.X = Player.O ∧ otherPlayer Player.O = Player.X :=
  ⟨rfl, rfl, rfl, rfl, rfl, rfl, rfl, rfl, rfl⟩

/-- C2: for every prior state and every cell index in `[0,8]`, a
`makeMove` on an occupied cell, or after the round has ended, returns the
state unchanged in every component (and, being a total function, raises
nothing). -/
theorem placeMark_noop_occupied_or_ended (s : GameState) (i : Nat) (hi : i ≤ 8)
    (h : (markAt s.board i).isSome = true ∨ s.winner ≠ none) :
    makeMove s (i : Int) = s := by
  apply makeMove_noop
  rw [Bool.or_eq_true]
  rcases h with h | h
  · left
    rw [jsGet_natCast]
    exact h
  · right
    cases hw : s.winner with
    | none => exact absurd hw h
    | some r => rfl

/-- Witness for C2 at a concrete input: after X takes cell 0, a second
`makeMove` at cell 0 is rejected and changes nothing. -/
theorem placeMark_noop_occupied_or_ended_witness :
    (0 : Nat) ≤ 8 ∧ (markAt (makeMove initState 0).board 0).isSome = true ∧
    makeMove (makeMove initState 0) ((0 : Nat) : Int) = makeMove initState 0 :=
  ⟨by decide, by decide,
    placeMark_noop_occupied_or_ended (makeMove initState 0) 0 (by decide)
      (Or.inl (by decide))⟩

/-- C4: the opponent-mode toggle changes `aiMode` only when both scores
are zero and no cell holds a mark; whenever a cell is occupied or a score
is nonzero the click is ignored and the whole state is unchanged; the
lock survives `restartGame` while a score is nonzero, and `resetAll`
lifts it (a toggle right after `resetAll` turns the mode on). -/
theorem setOpponentMode_locked (s : GameState) :
    ((toggleAIMode s).aiMode ≠ s.aiMode →
      s.scoreX = 0 ∧ s.scoreO = 0 ∧ s.board.any truthyCell = false) ∧
    ((0 < s.scoreX ∨ 0 < s.scoreO ∨ s.board.any truthyCell = true) → toggleAIMode s = s) ∧
    ((0 < s.scoreX ∨ 0 < s.scoreO) → toggleAIMode (restartGame s) = restartGame s) ∧
    (toggleAIMode (resetAll s)).aiMode = true := by
  refine ⟨?_, ?_, ?_, ?_⟩
  · intro hne
    by_cases hc : 0 < s.scoreX ∨ 0 < s.scoreO ∨ s.board.any truthyCell = true
    · have : toggleAIMode s = s := by
        unfold toggleAIMode
        rw [if_pos hc]
      rw [this] at hne
      exact absurd rfl hne
    · push_neg at hc
      exact ⟨by omega, by omega, Bool.eq_false_iff.mpr hc.2.2⟩
  · intro hc
    unfold toggleAIMode
    rw [if_pos hc]
  · intro hc
    unfold toggleAIMode
    rw [if_pos]
    rcases hc with hc | hc
    · exact Or.inl hc
    · exact Or.inr (Or.inl hc)
  · rfl

/-- Witness for C4 at a concrete input: after X takes cell 0, a toggle
click is a no-op, and after a full reset the toggle works again. -/
theorem setOpponentMode_locked_witness :
    toggleAIMode (makeMove initState 0) = makeMove initState 0 ∧
    (toggleAIMode (resetAll (makeMove initState 0))).aiMode = true :=
  ⟨(setOpponentMode_locked (makeMove initState 0)).2.1 (Or.inr (Or.inr (by decide))),
    (setOpponentMode_locked (makeMove initState 0)).2.2.2⟩

lemma cellMark_swap (c : Cell) : cellMark (swapCell c) = (cellMark c).map swapPlayer := by
  cases c <;> rfl

lemma jsRead_map_swap (b : List Cell) (i : Nat) :
    jsRead (b.map swapCell) i = swapCell (jsRead b i) := by
  rw [jsRead_eq, jsRead_eq, List.getElem?_map]
  cases b[i]? <;> rfl

lemma map_swapPlayer_eq_some {o : Option Player} {p : Player} :
    o.map swapPlayer = some (swapPlayer p) ↔ o = some p := by
  cases o with
  | none => simp
  | some q =>
    rcases q with - | - <;> rcases p with - | - <;> simp [swapPlayer]

lemma checkLine_swap (b : List Cell) (t : Nat × Nat × Nat) :
    checkLine (b.map swapCell) t = (checkLine b t).map swapPlayer := by
  unfold checkLine
  rw [jsRead_map_swap, jsRead_map_swap, jsRead_map_swap, cellMark_swap, cellMark_swap,
    cellMark_swap]
  cases h1 : cellMark (jsRead b t.1) with
  | none => rfl
  | some p =>
    dsimp only [Option.map_some']
    rw [if_congr (Iff.and map_swapPlayer_eq_some map_swapPlayer_eq_some) rfl rfl]
    split_ifs with hc
    · rfl
    · rfl

lemma findSome?_map_comm {α β γ : Type} (l : List α) (f : α → Option β) (g : β → γ)
    (f' : α → Option γ) (h : ∀ a : α, f' a = (f a).map g) :
    l.findSome? f' = (l.findSome? f).map g := by
  induction l with
  | nil => rfl
  | cons x xs ih =>
    rw [List.findSome?_cons, List.findSome?_cons, h x]
    cases f x with
    | none => exact ih
    | some b => rfl

/-- C9: the win check is symmetric under relabeling X and O: swapping
every cell's mark swaps the result of `getWinner`; only equality of
marks within a line matters.  (Stated for all boards; in particular for
all 9-cell boards.) -/
theorem getWinner_swap_symm (b : List Cell) :
    getWinner (b.map swapCell) = (getWinner b).map swapPlayer := by
  unfold getWinner
  exact findSome?_map_comm LINES (checkLine b) swapPlayer (checkLine (b.map swapCell))
    (checkLine_swap b)

/-- C10: in every state reachable through the engine's operations, the
stored `winner` agrees with the pure evaluation of the stored board: if
`winner` is `null` then `getWinner` of the board is `null`; if it is a
mark `m`, then `getWinner` of the board is `m` and `m` is the mark that
made the last placement (a winning `makeMove` leaves `current`
unchanged, so that mark is still `current`); if it is `"Draw"`, all 9
cells are occupied and `getWinner` of the board is `null`. -/
theorem roundResult_consistent (s : GameState) (h : Reachable s) :
    (s.winner = none → getWinner s.board = none) ∧
    (∀ m : Player, s.winner = some (RoundEnd.won m) →
      getWinner s.board = some m ∧ m = s.current) ∧
    (s.winner = some RoundEnd.draw → boardFull9 s.board ∧ getWinner s.board = none) := by
  obtain ⟨-, -, -, h4, h5, h6⟩ := inv_reachable h
  exact ⟨h4, h5, h6⟩

/-- Witness for C10 at a concrete input: the initial state is reachable
and its board evaluates to no winner. -/
theorem roundResult_consistent_witness : getWinner initState.board = none :=
  (roundResult_consistent initState Reachable.init).1 rfl

/-- C3 fails on the code: `makeMove` has no bounds check, so a call with
index 9 on the fresh board passes the guard (`board[9]` is `undefined`,
hence falsy), extends the board to length 10 and flips the turn — a
reachable state that is not a silent no-op. -/
theorem placeMark_out_of_range_not_noop :
    Reachable (makeMove initState 9) ∧
    makeMove initState 9 ≠ initState ∧
    (makeMove initState 9).current = Player.O ∧
    (makeMove initState 9).board.length = 10 :=
  ⟨Reachable.step Reachable.init (Step.place initState 9), by decide, by decide, by decide⟩

/-- C8 fails on the code for the same reason: one out-of-range
`makeMove` reaches a state whose board no longer has length 9. -/
theorem board_length_nine_violated :
    Reachable (makeMove initState 9) ∧ (makeMove initState 9).board.length ≠ 9 :=
  ⟨Reachable.step Reachable.init (Step.place initState 9), by decide⟩

/-- C5 fails on the code: the `setTimeout` callback scheduled by
`aiMove` does not re-validate `aiMode`, `winner` or `current` against
the live state; its guard reads only the stale closure.  Concretely:
with opponent mode on, after X takes cell 0 the effect schedules a
computer move (say at cell 4); if `resetAll` runs before the 500 ms
delay elapses, the callback still fires, overwrites the freshly reset
board with the stale board plus O's mark and sets the turn from the
stale closure — although at execution time `aiMode` is `false` and it
is X's turn. -/
theorem computerMove_no_execution_revalidation :
    aiSchedules (makeMove (toggleAIMode initState) 0) = true ∧
    4 ∈ getAvailableMoves (makeMove (toggleAIMode initState) 0).board ∧
    (resetAll (makeMove (toggleAIMode initState) 0)).aiMode = false ∧
    (resetAll (makeMove (toggleAIMode initState) 0)).current = Player.X ∧
    staleFire (makeMove (toggleAIMode initState) 0) 4
        (resetAll (makeMove (toggleAIMode initState) 0)) ≠
      resetAll (makeMove (toggleAIMode initState) 0) ∧
    (staleFire (makeMove (toggleAIMode initState) 0) 4
        (resetAll (makeMove (toggleAIMode initState) 0))).board =
      [Cell.mark Player.X, Cell.null, Cell.null, Cell.null, Cell.mark Player.O,
        Cell.null, Cell.null, Cell.null, Cell.null] := by
  refine ⟨by decide, by decide, by decide, by decide, by decide, by decide⟩

/-- The claimed outcome of one legal placement at cell `i`: the mark
lands on the board, `aiMode` and `startingPlayer` are untouched, and the
fixed evaluation order holds — a completed line (necessarily of the
mover's mark) sets `winner` to that mark and bumps exactly that mark's
score with the turn unchanged; otherwise a full grid sets `"Draw"` with
scores unchanged; otherwise the turn flips; and a single call never sets
both a win and a draw. -/
def PlaceOutcome (s : GameState) (i : Nat) : Prop :=
  (makeMove s (i : Int)).board = jsArraySet s.board (i : Int) (Cell.mark s.current) ∧
  (makeMove s (i : Int)).aiMode = s.aiMode ∧
  (makeMove s (i : Int)).startingPlayer = s.startingPlayer ∧
  (∀ m : Player, hasTriple (jsArraySet s.board (i : Int) (Cell.mark s.current)) m →
    m = s.current) ∧
  (hasTriple (jsArraySet s.board (i : Int) (Cell.mark s.current)) s.current →
    (makeMove s (i : Int)).winner = some (RoundEnd.won s.current) ∧
    (makeMove s (i : Int)).current = s.current ∧
    (s.current = Player.X →
      (makeMove s (i : Int)).scoreX = s.scoreX + 1 ∧
      (makeMove s (i : Int)).scoreO = s.scoreO) ∧
    (s.current = Player.O →
      (makeMove s (i : Int)).scoreO = s.scoreO + 1 ∧
      (makeMove s (i : Int)).scoreX = s.scoreX)) ∧
  (¬ hasTriple (jsArraySet s.board (i : Int) (Cell.mark s.current)) s.current →
    boardFull9 (jsArraySet s.board (i : Int) (Cell.mark s.current)) →
    (makeMove s (i : Int)).winner = some RoundEnd.draw ∧
    (makeMove s (i : Int)).scoreX = s.scoreX ∧
    (makeMove s (i : Int)).scoreO = s.scoreO) ∧
  (¬ hasTriple (jsArraySet s.board (i : Int) (Cell.mark s.current)) s.current →
    ¬ boardFull9 (jsArraySet s.board (i : Int) (Cell.mark s.current)) →
    (makeMove s (i : Int)).winner = none ∧
    (makeMove s (i : Int)).current = otherPlayer s.current ∧
    (makeMove s (i : Int)).scoreX = s.scoreX ∧
    (makeMove s (i : Int)).scoreO = s.scoreO) ∧
  ¬ ((makeMove s (i : Int)).winner = some RoundEnd.draw ∧
    ∃ m : Player, (makeMove s (i : Int)).winner = some (RoundEnd.won m))

/-- C1: in every reachable state with no winner, a `makeMove` at an empty
cell with index in `[0,8]` behaves exactly as specified: it writes the
current turn's mark there and evaluates win, then draw, then
turn-flip, in that order (see `PlaceOutcome`). -/
theorem placeMark_reachable_spec (s : GameState) (h : Reachable s) (hw : s.winner = none)
    (i : Nat) (hi : i ≤ 8) (he : jsRead s.board i = Cell.null) :
    PlaceOutcome s i := by
  obtain ⟨hlen, hreal, hextra, hnone, -, -⟩ := inv_reachable h
  have hgw : getWinner s.board = none := hnone hw
  have h0 : (0 : Int) ≤ (i : Int) := Int.natCast_nonneg i
  have hguard : (truthyCell (jsGet s.board (i : Int)) || s.winner.isSome) = false := by
    rw [jsGet_natCast, he, hw]
    rfl
  have hgo := makeMove_go hguard
  obtain ⟨hlen', hreal', hextra'⟩ :=
    jsArraySet_struct h0 hlen hreal hextra (m := s.current)
  have huniq : ∀ m : Player,
      hasTriple (jsArraySet s.board (i : Int) (Cell.mark s.current)) m → m = s.current :=
    fun m hm => mark_of_hasTriple_set hlen hgw h0 hm
  unfold PlaceOutcome
  refine ⟨?_, ?_, ?_, huniq, ?_, ?_, ?_, ?_⟩
  · rw [hgo]
    unfold makeMoveAux
    cases getWinner (jsArraySet s.board (i : Int) (Cell.mark s.current)) with
    | some p => rfl
    | none =>
      dsimp only
      split_ifs <;> rfl
  · rw [hgo]
    unfold makeMoveAux
    cases getWinner (jsArraySet s.board (i : Int) (Cell.mark s.current)) with
    | some p => rfl
    | none =>
      dsimp only
      split_ifs <;> rfl
  · rw [hgo]
    unfold makeMoveAux
    cases getWinner (jsArraySet s.board (i : Int) (Cell.mark s.current)) with
    | some p => rfl
    | none =>
      dsimp only
      split_ifs <;> rfl
  · intro htrip
    cases hwin : getWinner (jsArraySet s.board (i : Int) (Cell.mark s.current)) with
    | none => exact absurd htrip (getWinner_eq_none_iff.mp hwin s.current)
    | some p =>
      have hp := huniq p (hasTriple_of_getWinner hwin)
      subst hp
      rw [hgo, makeMoveAux_win hwin]
      refine ⟨rfl, rfl, ?_, ?_⟩
      · intro hx
        constructor
        · show (if s.current = Player.X then s.scoreX + 1 else s.scoreX) = s.scoreX + 1
          rw [if_pos hx]
        · show (if s.current = Player.O then s.scoreO + 1 else s.scoreO) = s.scoreO
          rw [if_neg (by rw [hx]; decide)]
      · intro ho
        constructor
        · show (if s.current = Player.O then s.scoreO + 1 else s.scoreO) = s.scoreO + 1
          rw [if_pos ho]
        · show (if s.current = Player.X then s.scoreX + 1 else s.scoreX) = s.scoreX
          rw [if_neg (by rw [ho]; decide)]
  · intro hnt hfull
    have hwin : getWinner (jsArraySet s.board (i : Int) (Cell.mark s.current)) = none :=
      getWinner_eq_none_iff.mpr fun m hm => hnt (by rwa [huniq m hm] at hm)
    have hf := (isBoardFull_iff hlen' hreal' hextra').mpr hfull
    rw [hgo, makeMoveAux_draw hwin hf]
    exact ⟨rfl, rfl, rfl⟩
  · intro hnt hnf
    have hwin : getWinner (jsArraySet s.board (i : Int) (Cell.mark s.current)) = none :=
      getWinner_eq_none_iff.mpr fun m hm => hnt (by rwa [huniq m hm] at hm)
    have hf : isBoardFull (jsArraySet s.board (i : Int) (Cell.mark s.current)) = false := by
      by_cases hfb : isBoardFull (jsArraySet s.board (i : Int) (Cell.mark s.current)) = true
      · exact absurd ((isBoardFull_iff hlen' hreal' hextra').mp hfb) hnf
      · exact Bool.eq_false_iff.mpr hfb
    rw [hgo, makeMoveAux_cont hwin hf]
    exact ⟨hw, rfl, rfl, rfl⟩
  · rintro ⟨hd, m, hm⟩
    rw [hd] at hm
    exact RoundEnd.noConfusion (Option.some_inj.mp hm)

/-- Witness for C1 at a concrete input: the first move of a fresh game,
X at cell 0. -/
theorem placeMark_reachable_spec_witness :
    initState.winner = none ∧ jsRead initState.board 0 = Cell.null ∧ PlaceOutcome initState 0 :=
  ⟨rfl, by decide,
    placeMark_reachable_spec initState Reachable.init rfl 0 (by decide) (by decide)⟩

